import Mathlib

/-!
Verification development for the ubirch `NRF52FlashStorage` layer.

The model is a shallow embedding of `src/storage/NRF52FlashStorage.cpp`
(the `fs_*` softdevice backend, namespace `FsBackend` below) and of the
`nrf_fstorage` backend found in `src/unnamed/part_000` (namespace
`NrfBackend`).  The flash medium is a byte map `Nat → Nat`, indexed by
the byte offset from the configured start address (`fs_config.p_start_addr`
resp. `nrfFstorage.start_addr`); a well-formed medium maps every address
to a value below 256.  All C integer arithmetic is carried out on `Nat`
with explicit reductions modulo 2^16 / 2^32 where the source uses
`uint16_t` / `uint32_t`.

Operations that busy-wait on the asynchronous completion flag are given
the type `Option (Bool × (Nat → Nat))`: `some (r, flash)` models the
function returning the C `bool` `r` with the medium left in state
`flash`, while `none` models the case in which the busy-wait loop
`while (fs_callback_flag == 1);` never terminates (the event handler
clears the flag only on success, so a failed completion spins forever).
-/

set_option maxRecDepth 8000
set_option linter.unusedVariables false

/-- Erased-state value of a NOR flash byte (spec glossary: all-ones). -/
def ERASED : Nat := 255

/-- The local `preLength` of `readData`/`writeData`:
`uint8_t preLength = (uint8_t) (p_location % 4);`. -/
def preLength (p_location : Nat) : Nat := p_location % 4

/-- The local `locationReal`: `uint32_t locationReal = p_location - preLength;`. -/
def locationReal (p_location : Nat) : Nat := p_location - p_location % 4

/-- The local `lengthReal`:
`uint16_t lengthReal = (uint16_t) (length8 + preLength);`
followed by `if (lengthReal % 4) lengthReal += 4 - (lengthReal % 4);`,
all in `uint16_t` arithmetic (reduced modulo 2^16). -/
def lengthReal (p_location length8 : Nat) : Nat :=
  let raw := (length8 + p_location % 4) % 65536
  if raw % 4 = 0 then raw else (raw + (4 - raw % 4)) % 65536

/-- The local `length32`: `uint16_t length32 = lengthReal >> 2;`. -/
def length32 (p_location length8 : Nat) : Nat := lengthReal p_location length8 / 4

/-- The little-endian 32-bit word obtained by dereferencing the
memory-mapped flash at byte address `a` (`*(fs_config.p_start_addr + wordIndex)`);
per spec §6 the platform packs 4 bytes per word with byte 0 in the
least-significant position. -/
def wordAt (flash : Nat → Nat) (a : Nat) : Nat :=
  flash a + 256 * flash (a + 1) + 65536 * flash (a + 2) + 16777216 * flash (a + 3)

/-- Modelled from the spec: `conv32to8` (declared in the `FlashStorage`
base class, whose implementation is not under src/) unpacks `length8`
bytes from an array of little-endian 32-bit words, byte 0 taken from the
least-significant position of each word (spec §6).  The source's failure
return for a null output pointer is not modelled. -/
def conv32to8 (d32 : List Nat) (length8 : Nat) : List Nat :=
  (List.range length8).map (fun i => d32.getD (i / 4) 0 / 256 ^ (i % 4) % 256)

/-- Modelled from the spec: `conv8to32` (declared in the `FlashStorage`
base class, whose implementation is not under src/) packs `length8` bytes
into `length8 / 4` little-endian 32-bit words (spec §6). -/
def conv8to32 (d8 : List Nat) (length8 : Nat) : List Nat :=
  (List.range (length8 / 4)).map (fun w =>
    d8.getD (4 * w) 0 + 256 * d8.getD (4 * w + 1) 0 + 65536 * d8.getD (4 * w + 2) 0 +
      16777216 * d8.getD (4 * w + 3) 0)

namespace FsBackend

/-- `NRF52FlashStorage::readData` of `src/storage/NRF52FlashStorage.cpp`
(lines 150-184).  `flash` is the byte content of the medium relative to
`fs_config.p_start_addr`.  The `buffer == NULL` check is not modelled
(the model returns the output buffer); `none` models the `false` return
for `length8 == 0`. -/
def readData (flash : Nat → Nat) (p_location length8 : Nat) : Option (List Nat) :=
  if length8 = 0 then none
  else
    let pre := preLength p_location
    let locR := locationReal p_location
    let lenR := lengthReal p_location length8
    let len32 := length32 p_location length8
    let buf32 := (List.range len32).map (fun i => wordAt flash (locR + 4 * i))
    let bufferReal := conv32to8 buf32 lenR
    some ((List.range length8).map (fun j => bufferReal.getD (j + pre) 0))

end FsBackend

/-- The environment of one write/erase call: whether the exclusive-access
guard initialization `initBleSd()` succeeds (`guardOk`), and whether the
medium's asynchronous completion event reports success (`completionOk`,
the condition under which the event handler clears the callback flag). -/
structure SdEnv where
  guardOk : Bool
  completionOk : Bool

/-- Modelled from the spec: acceptance condition of the medium's
`submitWrite` (`fs_store` / `nrf_fstorage_write`, vendor drivers not under
src/): the submission is accepted when the word range lies inside the
medium (spec §6, §4.5) and is nonempty (mirroring the in-src
`nosd_store`, which rejects `size == 0`).  `endWords` is the medium span
in 32-bit words, relative to the start address. -/
def storeAccept (endWords wordAddr nWords : Nat) : Bool :=
  decide (0 < nWords ∧ wordAddr + nWords ≤ endWords)

/-- Modelled from the spec: acceptance condition of the medium's
`submitErase` (`fs_erase` / `nrf_fstorage_erase`, vendor drivers not under
src/): accepted when the erased pages lie inside the medium (spec §4.5)
and the page count is nonzero (mirroring the in-src `nosd_erase_page`,
which rejects `num_pages == 0`). -/
def eraseAccept (endWords pageSizeWords wordAddr numPages : Nat) : Bool :=
  decide (0 < numPages ∧ wordAddr + pageSizeWords * numPages ≤ endWords)

/-- Modelled from the spec: the physical effect of programming `words`
at word address `wordAddr` on a NOR medium — each affected byte is ANDed
with the corresponding little-endian byte lane of the submitted word,
since programming can only clear bits (spec §1, §4.2). -/
def programWords (flash : Nat → Nat) (wordAddr : Nat) (words : List Nat) : Nat → Nat :=
  fun a =>
    if 4 * wordAddr ≤ a ∧ a < 4 * wordAddr + 4 * words.length then
      flash a &&& (words.getD ((a - 4 * wordAddr) / 4) 0 / 256 ^ ((a - 4 * wordAddr) % 4) % 256)
    else flash a

/-- Modelled from the spec: the physical effect of erasing `numPages`
pages starting at word address `wordAddr` — every byte of the erased
pages becomes the erased-state value 0xFF (spec glossary, §4.5). -/
def erasePagesFlash (flash : Nat → Nat) (wordAddr numPages pageSizeWords : Nat) : Nat → Nat :=
  fun a =>
    if 4 * wordAddr ≤ a ∧ a < 4 * wordAddr + 4 * (numPages * pageSizeWords) then ERASED
    else flash a

namespace FsBackend

/-- `NRF52FlashStorage::erasePage` of `src/storage/NRF52FlashStorage.cpp`
(lines 187-205).  The result of `this->initBleSd()` is discarded by the
source, so `env.guardOk` does not occur in the body.  A rejected
submission returns `false` before the busy-wait; an accepted one waits on
`fs_callback_flag`, which the event handler clears only on success, so
`env.completionOk = false` yields `none` (the loop never exits). -/
def erasePage (env : SdEnv) (pageSizeWords endWords : Nat) (flash : Nat → Nat)
    (page numPages : Nat) : Option (Bool × (Nat → Nat)) :=
  if eraseAccept endWords pageSizeWords (pageSizeWords * page) numPages then
    let flash2 := erasePagesFlash flash (pageSizeWords * page) numPages pageSizeWords
    if env.completionOk then some (true, flash2) else none
  else some (false, flash)

/-- The write buffer `bufferReal` of `writeData` after the three
assembly loops (lines 235-243): `0xFF` below `preLength`, the caller's
bytes at `[preLength, preLength + length8)`, and `0xFF` filler up to
`lengthReal`. -/
def bufferRealOf (p_location : Nat) (data : List Nat) : List Nat :=
  (List.range (lengthReal p_location data.length)).map (fun i =>
    if i < preLength p_location then ERASED
    else if i < preLength p_location + data.length then data.getD (i - preLength p_location) 0
    else ERASED)

/-- The medium state after `fs_store` programs the converted buffer
`buf32` at word address `locationReal >> 2` (line 265). -/
def flashAfterWrite (flash : Nat → Nat) (p_location : Nat) (data : List Nat) : Nat → Nat :=
  programWords flash (locationReal p_location / 4)
    (conv8to32 (bufferRealOf p_location data) (lengthReal p_location data.length))

/-- The erase-state check of `writeData` (lines 226-232): read the
aligned span back through `readData` and require every byte the caller
is about to overwrite (`for (i = preLength; i < preLength + length8; ++i)`)
to hold `0xFF`.  Reading `bufferReal` past the span (possible only when
`lengthReal` wrapped modulo 2^16) is modelled by the `getD` default. -/
def eraseCheck (flash : Nat → Nat) (p_location length8 : Nat) : Bool :=
  (List.range length8).all (fun k =>
    ((readData flash (locationReal p_location) (lengthReal p_location length8)).getD []).getD
      (k + preLength p_location) 0 == ERASED)

/-- `NRF52FlashStorage::writeData` of `src/storage/NRF52FlashStorage.cpp`
(lines 208-277).  `data` is the caller's buffer and `data.length` the
`uint16_t length8` argument.  The result of `this->initBleSd()` is
discarded by the source, so `env.guardOk` does not occur in the body. -/
def writeData (env : SdEnv) (endWords : Nat) (flash : Nat → Nat) (p_location : Nat)
    (data : List Nat) : Option (Bool × (Nat → Nat)) :=
  if data.length = 0 then some (false, flash)
  else
    if eraseCheck flash p_location data.length then
      if storeAccept endWords (locationReal p_location / 4) (length32 p_location data.length) then
        if env.completionOk then some (true, flashAfterWrite flash p_location data) else none
      else some (false, flash)
    else some (false, flash)

/-- The erase-state check of `writeData` with the out-of-bounds reads of
the `bufferReal` VLA made explicit: in the `uint16_t` wrap regime
(`lengthReal < preLength + length8`) the check loop of lines 227-231
reads past the end of the `lengthReal`-byte VLA — undefined behavior in
the C — and this variant resolves each such read by an explicit stack
oracle `garbage`.  For indices inside the VLA it reads the bytes
`readData` filled in, exactly as `eraseCheck` does; when no wrap occurs
every index is inside the VLA and the oracle is never consulted. -/
def eraseCheckUB (garbage flash : Nat → Nat) (p_location length8 : Nat) : Bool :=
  (List.range length8).all (fun k =>
    (if k + preLength p_location <
        ((readData flash (locationReal p_location) (lengthReal p_location length8)).getD
          []).length then
      ((readData flash (locationReal p_location) (lengthReal p_location length8)).getD
        []).getD (k + preLength p_location) 0
    else garbage (k + preLength p_location)) == ERASED)

/-- `NRF52FlashStorage::writeData` as `writeData` above, but with the
undefined out-of-bounds `bufferReal` reads of the erase-state check
(possible only in the `uint16_t` wrap regime) resolved by the explicit
oracle `garbage` — one legal execution of the C per oracle.  The
submitted words read only the first `lengthReal` assembled bytes, which
both variants model identically. -/
def writeDataUB (garbage : Nat → Nat) (env : SdEnv) (endWords : Nat) (flash : Nat → Nat)
    (p_location : Nat) (data : List Nat) : Option (Bool × (Nat → Nat)) :=
  if data.length = 0 then some (false, flash)
  else
    if eraseCheckUB garbage flash p_location data.length then
      if storeAccept endWords (locationReal p_location / 4) (length32 p_location data.length) then
        if env.completionOk then some (true, flashAfterWrite flash p_location data) else none
      else some (false, flash)
    else some (false, flash)

end FsBackend

namespace NrfBackend

/-- `NRF52FlashStorage::readData` of `src/unnamed/part_000` (lines
215-250).  Identical to the `FsBackend` version except for line 234:
`buf32[i] = (nrfFstorage.start_addr + (locationReal >> 2) + i);`
stores the `uint32_t` word **address** into the buffer — the pointer
dereference of the `fs_*` backend is missing — so the medium contents
`flash` are never consulted.  `start_addr` is the configured start
address (`0` in the in-src configuration). -/
def readData (start_addr : Nat) (flash : Nat → Nat) (p_location length8 : Nat) :
    Option (List Nat) :=
  if length8 = 0 then none
  else
    let pre := preLength p_location
    let locR := locationReal p_location
    let lenR := lengthReal p_location length8
    let len32 := length32 p_location length8
    let buf32 := (List.range len32).map (fun i => (start_addr + locR / 4 + i) % 4294967296)
    let bufferReal := conv32to8 buf32 lenR
    some ((List.range length8).map (fun j => bufferReal.getD (j + pre) 0))

end NrfBackend

/-- A fully erased medium: every byte holds 0xFF. -/
def flashFF : Nat → Nat := fun _ => ERASED

/-- A medium with a programmed (non-erased) byte at offset 2. -/
def flashDirty2 : Nat → Nat := fun a => if a = 2 then 0 else ERASED

/-- A medium whose first word is erased and whose remaining bytes hold 0x11. -/
def flashTail17 : Nat → Nat := fun a => if a < 4 then ERASED else 17

/-- A 65530-byte caller buffer of 0x01 bytes, long enough to make the
`uint16_t` length computation wrap at a misaligned offset. -/
def bigData : List Nat := List.replicate 65530 1

/-- A blank (all-zero, fully programmed) medium. -/
def flashZero : Nat → Nat := fun _ => 0

/-- A medium erased everywhere except for a programmed byte at offset 13. -/
def flashDirty13 : Nat → Nat := fun a => if a = 13 then 0 else ERASED

/-- A 65534-byte caller buffer of 0x00 bytes: at offset 3 the `uint16_t`
aligned-length computation wraps to a 4-byte span. -/
def bigZero : List Nat := List.replicate 65534 0

/-! ## General lemmas about the embedding -/

theorem lengthReal_no_wrap (p l : Nat) (h : l + p % 4 ≤ 65532) :
    lengthReal p l = (l + p % 4 + 3) / 4 * 4 := by
  have h4 : p % 4 < 4 := Nat.mod_lt _ (by decide)
  simp only [lengthReal]
  split <;> omega

theorem lengthReal_mod_four (p l : Nat) : lengthReal p l % 4 = 0 := by
  simp only [lengthReal]
  split <;> omega

theorem le_lengthReal (p l : Nat) (h : l + p % 4 ≤ 65532) :
    l + p % 4 ≤ lengthReal p l := by
  rw [lengthReal_no_wrap p l h]; omega

theorem lengthReal_le (p l : Nat) (h : l + p % 4 ≤ 65532) :
    lengthReal p l ≤ 65532 := by
  rw [lengthReal_no_wrap p l h]; omega

theorem locationReal_mod_four (p : Nat) : locationReal p % 4 = 0 := by
  unfold locationReal; omega

theorem getD_map_range (n i d : Nat) (f : Nat → Nat) :
    ((List.range n).map f).getD i d = if i < n then f i else d := by
  rw [List.getD_eq_getElem?_getD, List.getElem?_map]
  by_cases h : i < n
  · rw [List.getElem?_range h]; simp [h]
  · rw [List.getElem?_eq_none (by simpa using Nat.le_of_not_lt h)]; simp [h]

theorem wordAt_lane (flash : Nat → Nat) (hwf : ∀ x, flash x < 256) (a k : Nat) (hk : k < 4) :
    wordAt flash a / 256 ^ k % 256 = flash (a + k) := by
  have h0 := hwf a
  have h1 := hwf (a + 1)
  have h2 := hwf (a + 2)
  have h3 := hwf (a + 3)
  unfold wordAt
  interval_cases k <;> norm_num <;> omega

theorem conv8to32_lane (d8 : List Nat) (len8 : Nat) (h4 : len8 % 4 = 0)
    (hwf : ∀ i, d8.getD i 0 < 256) (i : Nat) (hi : i < len8) :
    (conv8to32 d8 len8).getD (i / 4) 0 / 256 ^ (i % 4) % 256 = d8.getD i 0 := by
  unfold conv8to32
  rw [getD_map_range]
  have hdiv : i / 4 < len8 / 4 := by omega
  rw [if_pos hdiv]
  have := wordAt_lane (fun m => d8.getD m 0) hwf (4 * (i / 4)) (i % 4) (by omega)
  simp only [wordAt] at this
  rw [show 4 * (i / 4) + 1 = 4 * (i / 4) + 1 from rfl] at this
  calc (d8.getD (4 * (i / 4)) 0 + 256 * d8.getD (4 * (i / 4) + 1) 0 +
          65536 * d8.getD (4 * (i / 4) + 2) 0 + 16777216 * d8.getD (4 * (i / 4) + 3) 0) /
          256 ^ (i % 4) % 256
      = d8.getD (4 * (i / 4) + i % 4) 0 := this
    _ = d8.getD i 0 := by congr 1; omega

theorem readData_eq (flash : Nat → Nat) (p_location length8 : Nat)
    (hwf : ∀ a, flash a < 256) (h0 : 0 < length8)
    (hnw : length8 + p_location % 4 ≤ 65532) :
    FsBackend.readData flash p_location length8 =
      some ((List.range length8).map (fun j => flash (p_location + j))) := by
  have hpre : p_location % 4 ≤ p_location := Nat.mod_le _ _
  have hlenR := lengthReal_no_wrap p_location length8 hnw
  have hmod4 := lengthReal_mod_four p_location length8
  simp only [FsBackend.readData, if_neg (by omega : ¬ length8 = 0)]
  congr 1
  apply List.map_congr_left
  intro j hj
  rw [List.mem_range] at hj
  simp only [conv32to8, length32, preLength, locationReal]
  rw [getD_map_range]
  have hjpre : j + p_location % 4 < lengthReal p_location length8 := by omega
  rw [if_pos hjpre, getD_map_range,
    if_pos (by omega : (j + p_location % 4) / 4 < lengthReal p_location length8 / 4)]
  rw [wordAt_lane flash hwf _ _ (by omega : (j + p_location % 4) % 4 < 4)]
  congr 1
  omega

/-! ## C3: the aligned-request computation -/

/-- C3 (counterexample): at offset 3 and length 65534 the code's
`uint16_t` computation of the aligned byte span yields 4, not the value
65540 obtained by rounding `length + preSkip` up to the next multiple of
4, so the claimed exact formula fails. -/
theorem C3_counterexample : lengthReal 3 65534 ≠ (65534 + 3 % 4 + 3) / 4 * 4 := by decide

/-- C3 (amended): for every offset and every length > 0 with
`length + offset % 4 ≤ 65532` (no `uint16_t` overflow), the aligned
request computed by both `readData` and `writeData` (their shared
`preLength`/`locationReal`/`lengthReal`/`length32` computation) is
exactly: preSkip = offset mod 4, wordAddress = offset - preSkip,
byteSpan = (length + preSkip) rounded up to the next multiple of 4,
wordCount = byteSpan / 4. -/
theorem C3_aligned_request (offset length8 : Nat) (hpos : 0 < length8)
    (hnw : length8 + offset % 4 ≤ 65532) :
    preLength offset = offset % 4 ∧
    locationReal offset = offset - offset % 4 ∧
    lengthReal offset length8 = (length8 + offset % 4 + 3) / 4 * 4 ∧
    length32 offset length8 = (length8 + offset % 4 + 3) / 4 := by
  refine ⟨rfl, rfl, lengthReal_no_wrap offset length8 hnw, ?_⟩
  unfold length32
  rw [lengthReal_no_wrap offset length8 hnw]
  omega

/-- C3 (witness): the amended statement at offset 6, length 3. -/
theorem C3_aligned_request_witness :
    preLength 6 = 6 % 4 ∧
    locationReal 6 = 6 - 6 % 4 ∧
    lengthReal 6 3 = (3 + 6 % 4 + 3) / 4 * 4 ∧
    length32 6 3 = (3 + 6 % 4 + 3) / 4 :=
  C3_aligned_request 6 3 (by decide) (by decide)

/-! ## C10: 16-bit wrap of the aligned byte span -/

/-- C10: whenever the offset is misaligned and `length8 + offset % 4`
rounded up to a multiple of 4 exceeds 65535, the `uint16_t` computation
of the aligned byte span (`lengthReal`, shared by `readData` and
`writeData`) wraps modulo 2^16 and the resulting span covers fewer bytes
than the caller requested. -/
theorem C10_length_wraps (offset length8 : Nat) (hmis : offset % 4 ≠ 0)
    (hlen : length8 ≤ 65535) (hover : 65535 < (length8 + offset % 4 + 3) / 4 * 4) :
    lengthReal offset length8 < length8 := by
  have h4 : offset % 4 < 4 := Nat.mod_lt _ (by decide)
  simp only [lengthReal]
  split <;> omega

/-- C10 (witness): offset 3, length 65534 — the computed span is 4 bytes. -/
theorem C10_length_wraps_witness : lengthReal 3 65534 < 65534 :=
  C10_length_wraps 3 65534 (by decide) (by decide) (by decide)

/-! ## C5: the exclusive-access guard result is ignored -/

/-- C5 (counterexample): with the guard initialization failing
(`guardOk = false`), `writeData` still submits the physical write (byte 0
of the fully erased medium becomes 7) and returns success rather than a
resource-unavailable failure; `erasePage` likewise still erases. -/
theorem C5_counterexample :
    (FsBackend.writeData ⟨false, true⟩ 4 flashFF 0 [7]).map (fun r => (r.1, r.2 0)) =
        some (true, 7) ∧
    (FsBackend.erasePage ⟨false, true⟩ 2 4 (fun _ => 0) 0 1).map (fun r => (r.1, r.2 0)) =
        some (true, 255) := by
  constructor <;> rfl

/-- C5 (amended): `writeData` and `erasePage` call the guard
initialization `initBleSd()` but discard its result: their outcome is
identical whether the guard initialization succeeds or fails, and on
guard failure the physical operation is still submitted. -/
theorem C5_guard_result_ignored (g c : Bool) (endWords pageSizeWords : Nat)
    (flash : Nat → Nat) (p_location : Nat) (data : List Nat) (page numPages : Nat) :
    FsBackend.writeData ⟨g, c⟩ endWords flash p_location data =
        FsBackend.writeData ⟨true, c⟩ endWords flash p_location data ∧
    FsBackend.erasePage ⟨g, c⟩ pageSizeWords endWords flash page numPages =
        FsBackend.erasePage ⟨true, c⟩ pageSizeWords endWords flash page numPages :=
  ⟨rfl, rfl⟩

/-! ## C6: out-of-bounds erase is rejected -/

/-- C6: `erasePage(page, count)` fails and performs no erase whenever
`page * pageSize + count * pageSize` (in bytes, with
`pageSize = 4 * pageSizeWords`) exceeds the medium's address span
`4 * endWords`. -/
theorem C6_erase_out_of_bounds (env : SdEnv) (pageSizeWords endWords : Nat)
    (flash : Nat → Nat) (page numPages : Nat)
    (hob : 4 * endWords < page * (4 * pageSizeWords) + numPages * (4 * pageSizeWords)) :
    FsBackend.erasePage env pageSizeWords endWords flash page numPages =
      some (false, flash) := by
  have hrej : eraseAccept endWords pageSizeWords (pageSizeWords * page) numPages = false := by
    simp only [eraseAccept, decide_eq_false_iff_not, not_and]
    have e1 : page * (4 * pageSizeWords) = 4 * (pageSizeWords * page) := by ring
    have e2 : numPages * (4 * pageSizeWords) = 4 * (pageSizeWords * numPages) := by ring
    intro _
    omega
  simp only [FsBackend.erasePage, hrej, Bool.false_eq_true, if_false]

/-- C6 (witness): erasing 2 pages starting at page 1 on a 2-page medium
(pages of 2 words) is rejected and leaves the medium untouched. -/
theorem C6_erase_out_of_bounds_witness :
    FsBackend.erasePage ⟨true, true⟩ 2 4 flashFF 1 2 = some (false, flashFF) :=
  C6_erase_out_of_bounds ⟨true, true⟩ 2 4 flashFF 1 2 (by decide)

/-! ## C9: the two readData implementations disagree -/

/-- C9: with the configured start address 0, on a medium whose bytes all
hold 0xAB, the `nrf_fstorage` backend's `readData` returns `[0,0,0,0]`
while the `fs_*` backend returns `[0xAB,0xAB,0xAB,0xAB]`: line 234 of
`src/unnamed/part_000` stores the word address
`nrfFstorage.start_addr + (locationReal >> 2) + i` itself into `buf32`
instead of dereferencing it, so the medium contents are never read. -/
theorem C9_backends_disagree :
    NrfBackend.readData 0 (fun _ => 171) 0 4 ≠ FsBackend.readData (fun _ => 171) 0 4 := by
  decide

/-! ## C7: a failed completion signal hangs instead of returning a fault -/

/-- C7 (counterexample): a write whose submission is accepted but whose
completion event reports failure never returns (the event handler clears
`fs_callback_flag` only on success, so the busy-wait spins forever,
modelled by `none`) — no hardware-fault result is produced; likewise for
`erasePage`. -/
theorem C7_counterexample :
    FsBackend.writeData ⟨true, false⟩ 4 flashFF 0 [7] = none ∧
    FsBackend.erasePage ⟨true, false⟩ 2 4 flashFF 0 1 = none := by
  constructor <;> rfl

theorem getD_lt_256 (data : List Nat) (hdata : ∀ b ∈ data, b < 256) (j : Nat) :
    data.getD j 0 < 256 := by
  by_cases h : j < data.length
  · rw [List.getD_eq_getElem?_getD, List.getElem?_eq_getElem h]
    exact hdata _ (List.getElem_mem h)
  · rw [List.getD_eq_getElem?_getD, List.getElem?_eq_none (by omega)]
    decide

theorem erased_and (x : Nat) (h : x < 256) : x &&& ERASED = x := by
  have h8 : ERASED = 2 ^ 8 - 1 := by decide
  rw [h8, Nat.and_pow_two_sub_one_eq_mod]
  exact Nat.mod_eq_of_lt h

theorem and_erased (x : Nat) (h : x < 256) : ERASED &&& x = x := by
  rw [Nat.and_comm]
  exact erased_and x h

theorem bufferRealOf_getD (p : Nat) (data : List Nat) (i : Nat)
    (h : i < lengthReal p data.length) :
    (FsBackend.bufferRealOf p data).getD i 0 =
      if i < p % 4 then ERASED
      else if i < p % 4 + data.length then data.getD (i - p % 4) 0
      else ERASED := by
  unfold FsBackend.bufferRealOf
  rw [getD_map_range, if_pos h]
  rfl

theorem bufferRealOf_wf (p : Nat) (data : List Nat) (hdata : ∀ b ∈ data, b < 256) (i : Nat) :
    (FsBackend.bufferRealOf p data).getD i 0 < 256 := by
  unfold FsBackend.bufferRealOf
  rw [getD_map_range]
  split
  · split
    · decide
    · split
      · exact getD_lt_256 data hdata _
      · decide
  · decide

theorem flashAfterWrite_wf (flash : Nat → Nat) (p : Nat) (data : List Nat)
    (hwf : ∀ a, flash a < 256) (a : Nat) : FsBackend.flashAfterWrite flash p data a < 256 := by
  unfold FsBackend.flashAfterWrite programWords
  split
  · have h256 : (256 : Nat) = 2 ^ 8 := by decide
    rw [h256]
    exact Nat.and_lt_two_pow _ (by rw [← h256]; exact Nat.mod_lt _ (by decide))
  · exact hwf a

theorem flashAfterWrite_requested (flash : Nat → Nat) (p : Nat) (data : List Nat)
    (hwf : ∀ a, flash a < 256) (hdata : ∀ b ∈ data, b < 256)
    (hnw : data.length + p % 4 ≤ 65532)
    (herased : ∀ j, j < data.length → flash (p + j) = ERASED)
    (j : Nat) (hj : j < data.length) :
    FsBackend.flashAfterWrite flash p data (p + j) = data.getD j 0 := by
  have hlr : locationReal p = p - p % 4 := rfl
  have h1 := locationReal_mod_four p
  have h2 := le_lengthReal p data.length hnw
  have h3 := lengthReal_mod_four p data.length
  have hple : p % 4 ≤ p := Nat.mod_le _ _
  unfold FsBackend.flashAfterWrite programWords
  have hL : (conv8to32 (FsBackend.bufferRealOf p data) (lengthReal p data.length)).length =
      lengthReal p data.length / 4 := by
    simp [conv8to32]
  rw [hL, if_pos (by omega)]
  have hidx : p + j - 4 * (locationReal p / 4) = p % 4 + j := by omega
  rw [hidx]
  rw [conv8to32_lane _ _ h3 (bufferRealOf_wf p data hdata) _ (by omega)]
  rw [bufferRealOf_getD p data _ (by omega), if_neg (by omega), if_pos (by omega)]
  have hidx2 : p % 4 + j - p % 4 = j := by omega
  rw [hidx2, herased j hj]
  exact and_erased _ (getD_lt_256 data hdata j)

theorem flashAfterWrite_frame (flash : Nat → Nat) (p : Nat) (data : List Nat)
    (hwf : ∀ a, flash a < 256) (hdata : ∀ b ∈ data, b < 256)
    (a : Nat) (ha : a < p ∨ p + data.length ≤ a) :
    FsBackend.flashAfterWrite flash p data a = flash a := by
  have hlr : locationReal p = p - p % 4 := rfl
  have h1 := locationReal_mod_four p
  have h3 := lengthReal_mod_four p data.length
  have hple : p % 4 ≤ p := Nat.mod_le _ _
  unfold FsBackend.flashAfterWrite programWords
  have hL : (conv8to32 (FsBackend.bufferRealOf p data) (lengthReal p data.length)).length =
      lengthReal p data.length / 4 := by
    simp [conv8to32]
  rw [hL]
  split
  · rename_i hin
    have hidx : a - 4 * (locationReal p / 4) = a - locationReal p := by omega
    rw [hidx]
    rw [conv8to32_lane _ _ h3 (bufferRealOf_wf p data hdata) _ (by omega)]
    rw [bufferRealOf_getD p data _ (by omega)]
    have hpad : (if a - locationReal p < p % 4 then ERASED
        else if a - locationReal p < p % 4 + data.length then
          data.getD (a - locationReal p - p % 4) 0
        else ERASED) = ERASED := by
      rcases ha with h | h
      · rw [if_pos (by omega)]
      · rw [if_neg (by omega), if_neg (by omega)]
    rw [hpad]
    exact erased_and _ (hwf a)
  · rfl

theorem eraseCheck_true (flash : Nat → Nat) (p length8 : Nat)
    (hwf : ∀ a, flash a < 256) (h0 : 0 < length8)
    (hnw : length8 + p % 4 ≤ 65532)
    (herased : ∀ j, j < length8 → flash (p + j) = ERASED) :
    FsBackend.eraseCheck flash p length8 = true := by
  have hlr : locationReal p = p - p % 4 := rfl
  have h1 := locationReal_mod_four p
  have h2 := le_lengthReal p length8 hnw
  have h3 := lengthReal_le p length8 hnw
  have hple : p % 4 ≤ p := Nat.mod_le _ _
  unfold FsBackend.eraseCheck
  rw [readData_eq flash _ _ hwf (by omega) (by omega)]
  rw [Option.getD_some, List.all_eq_true]
  intro x hx
  rw [List.mem_range] at hx
  have hpre : preLength p = p % 4 := rfl
  rw [getD_map_range, if_pos (by omega)]
  have hidx : locationReal p + (x + preLength p) = p + x := by omega
  rw [hidx, herased x hx]
  decide

theorem eraseCheck_false (flash : Nat → Nat) (p length8 : Nat)
    (hwf : ∀ a, flash a < 256) (hlen : length8 ≤ 65535)
    (j : Nat) (hj : j < length8) (hd : flash (p + j) ≠ ERASED) :
    FsBackend.eraseCheck flash p length8 = false := by
  have hlr : locationReal p = p - p % 4 := rfl
  have h1 := locationReal_mod_four p
  have hple : p % 4 ≤ p := Nat.mod_le _ _
  have hpre : preLength p = p % 4 := rfl
  have h4 : p % 4 < 4 := Nat.mod_lt _ (by decide)
  unfold FsBackend.eraseCheck
  rw [Bool.eq_false_iff]
  intro hall
  rw [List.all_eq_true] at hall
  by_cases hnw : length8 + p % 4 ≤ 65532
  · have h2 := le_lengthReal p length8 hnw
    have h3 := lengthReal_le p length8 hnw
    have hx := hall j (List.mem_range.mpr hj)
    rw [readData_eq flash _ _ hwf (by omega) (by omega)] at hx
    rw [Option.getD_some, getD_map_range, if_pos (by omega)] at hx
    have hidx : locationReal p + (j + preLength p) = p + j := by omega
    rw [hidx, beq_iff_eq] at hx
    exact hd hx
  · have hcases : lengthReal p length8 = 0 ∨ lengthReal p length8 = 4 := by
      simp only [lengthReal]
      split <;> omega
    rcases hcases with hc | hc
    · have hx := hall 0 (List.mem_range.mpr (by omega))
      rw [hc] at hx
      rw [show FsBackend.readData flash (locationReal p) 0 = none from rfl] at hx
      simp at hx
      exact absurd hx (by decide)
    · have hx := hall 4 (List.mem_range.mpr (by omega))
      rw [hc] at hx
      rw [readData_eq flash (locationReal p) 4 hwf (by decide) (by omega)] at hx
      rw [Option.getD_some, getD_map_range, if_neg (by omega)] at hx
      simp at hx
      exact absurd hx (by decide)

theorem storeAccept_true (endWords p length8 : Nat) (h0 : 0 < length8)
    (hnw : length8 + p % 4 ≤ 65532) (hbound : p + length8 ≤ 4 * endWords) :
    storeAccept endWords (locationReal p / 4) (length32 p length8) = true := by
  have hlr : locationReal p = p - p % 4 := rfl
  have h1 := locationReal_mod_four p
  have h4 := lengthReal_no_wrap p length8 hnw
  have h3 := lengthReal_mod_four p length8
  have hple : p % 4 ≤ p := Nat.mod_le _ _
  simp only [storeAccept, length32, decide_eq_true_eq]
  omega

theorem writeData_submit (env : SdEnv) (endWords : Nat) (flash : Nat → Nat) (p : Nat)
    (data : List Nat) (hwf : ∀ a, flash a < 256) (h0 : 0 < data.length)
    (hnw : data.length + p % 4 ≤ 65532)
    (herased : ∀ j, j < data.length → flash (p + j) = ERASED)
    (hbound : p + data.length ≤ 4 * endWords) :
    FsBackend.writeData env endWords flash p data =
      if env.completionOk then some (true, FsBackend.flashAfterWrite flash p data)
      else none := by
  have hcheck := eraseCheck_true flash p data.length hwf h0 hnw herased
  have haccept := storeAccept_true endWords p data.length h0 hnw hbound
  simp only [FsBackend.writeData, if_neg (by omega : ¬ data.length = 0), hcheck, haccept,
    if_true]

theorem eraseCheck_false_of_wrap (flash : Nat → Nat) (p length8 : Nat)
    (hwf : ∀ a, flash a < 256) (hlen : length8 ≤ 65535)
    (hwrap : 65532 < length8 + p % 4) :
    FsBackend.eraseCheck flash p length8 = false := by
  have hlr : locationReal p = p - p % 4 := rfl
  have h1 := locationReal_mod_four p
  have hpre : preLength p = p % 4 := rfl
  have h4 : p % 4 < 4 := Nat.mod_lt _ (by decide)
  unfold FsBackend.eraseCheck
  rw [Bool.eq_false_iff]
  intro hall
  rw [List.all_eq_true] at hall
  have hcases : lengthReal p length8 = 0 ∨ lengthReal p length8 = 4 := by
    simp only [lengthReal]
    split <;> omega
  rcases hcases with hc | hc
  · have hx := hall 0 (List.mem_range.mpr (by omega))
    rw [hc] at hx
    rw [show FsBackend.readData flash (locationReal p) 0 = none from rfl] at hx
    simp at hx
    exact absurd hx (by decide)
  · have hx := hall 4 (List.mem_range.mpr (by omega))
    rw [hc] at hx
    rw [readData_eq flash (locationReal p) 4 hwf (by decide) (by omega)] at hx
    rw [Option.getD_some, getD_map_range, if_neg (by omega)] at hx
    simp at hx
    exact absurd hx (by decide)

theorem map_range_eq_of_getD (n : Nat) (f : Nat → Nat) (l : List Nat) (hl : l.length = n)
    (h : ∀ j, j < n → f j = l.getD j 0) : (List.range n).map f = l := by
  apply List.ext_getElem (by simp [hl])
  intro i h1 h2
  simp only [List.getElem_map, List.getElem_range]
  rw [h i (by simpa using h1), List.getD_eq_getElem?_getD, List.getElem?_eq_getElem h2]
  rfl

/-! ## C2: writing over a non-erased byte fails without touching the medium -/

theorem eraseCheckUB_false (garbage flash : Nat → Nat) (p length8 : Nat)
    (hwf : ∀ a, flash a < 256) (hnw : length8 + p % 4 ≤ 65532)
    (j : Nat) (hj : j < length8) (hd : flash (p + j) ≠ ERASED) :
    FsBackend.eraseCheckUB garbage flash p length8 = false := by
  have hlr : locationReal p = p - p % 4 := rfl
  have h1 := locationReal_mod_four p
  have hple : p % 4 ≤ p := Nat.mod_le _ _
  have hpre : preLength p = p % 4 := rfl
  have h2 := le_lengthReal p length8 hnw
  have h3 := lengthReal_le p length8 hnw
  unfold FsBackend.eraseCheckUB
  rw [Bool.eq_false_iff]
  intro hall
  rw [List.all_eq_true] at hall
  have hx := hall j (List.mem_range.mpr hj)
  rw [readData_eq flash _ _ hwf (by omega) (by omega), Option.getD_some] at hx
  simp only [List.length_map, List.length_range] at hx
  rw [if_pos (by omega), getD_map_range, if_pos (by omega)] at hx
  have hidx : locationReal p + (j + preLength p) = p + j := by omega
  rw [hidx, beq_iff_eq] at hx
  exact hd hx

/-- C2 (counterexample): in the `uint16_t` wrap regime the claim as
stated can fail.  At offset 3 with the 65534-byte buffer `bigZero`,
`lengthReal` wraps to 4, so the check loop scans indices `[3, 65537)` of
a 4-byte VLA — undefined behavior in the C.  Under the legal resolution
in which every out-of-bounds read yields 0xFF (`garbage := flashFF`),
the check passes even though the requested range contains the programmed
byte 0x00 at offset 13, the write is submitted, `writeData` returns
`true` (not the not-erased failure) and byte 3 of the medium is cleared
from 0xFF to 0x00. -/
theorem C2_counterexample :
    flashDirty13 13 = 0 ∧ flashDirty13 3 = 255 ∧
    FsBackend.writeDataUB flashFF ⟨true, true⟩ 1 flashDirty13 3 bigZero =
        some (true, FsBackend.flashAfterWrite flashDirty13 3 bigZero) ∧
    FsBackend.flashAfterWrite flashDirty13 3 bigZero 3 = 0 := by
  have hlenZ : bigZero.length = 65534 := by
    show (List.replicate 65534 0).length = 65534
    rw [List.length_replicate]
  have hwfD : ∀ a, flashDirty13 a < 256 := fun a => by
    unfold flashDirty13 ERASED
    split <;> decide
  have hlr4 : lengthReal 3 65534 = 4 := by decide
  refine ⟨rfl, rfl, ?_, ?_⟩
  · have hcheck : FsBackend.eraseCheckUB flashFF flashDirty13 3 65534 = true := by
      unfold FsBackend.eraseCheckUB
      rw [List.all_eq_true]
      intro x hx
      rw [List.mem_range] at hx
      rw [hlr4, readData_eq flashDirty13 _ _ hwfD (by decide) (by decide), Option.getD_some]
      simp only [List.length_map, List.length_range]
      by_cases hxs : x + preLength 3 < 4
      · rw [if_pos hxs, getD_map_range, if_pos (by omega)]
        have hne : locationReal 3 + (x + preLength 3) ≠ 13 := by
          have hp3 : preLength 3 = 3 := rfl
          have hl3 : locationReal 3 = 0 := rfl
          omega
        unfold flashDirty13
        rw [if_neg hne]
        decide
      · rw [if_neg hxs]
        rfl
    have hacc : storeAccept 1 (locationReal 3 / 4) (length32 3 65534) = true := by decide
    unfold FsBackend.writeDataUB
    simp only [hlenZ, hcheck, hacc, if_true]
    rw [if_neg (by decide : ¬ (65534 : Nat) = 0)]
  · have hwfZ : ∀ b ∈ bigZero, b < 256 := fun b hb => by
      rw [List.eq_of_mem_replicate hb]
      decide
    unfold FsBackend.flashAfterWrite programWords
    simp only [hlenZ, hlr4]
    have hL : (conv8to32 (FsBackend.bufferRealOf 3 bigZero) 4).length = 1 := by
      simp [conv8to32]
    have hl3 : locationReal 3 = 0 := rfl
    rw [hL, hl3, if_pos (by omega)]
    rw [conv8to32_lane _ 4 (by decide) (bufferRealOf_wf 3 bigZero hwfZ) _
      (by omega : 3 - 4 * (0 / 4) < 4)]
    have hidx : 3 - 4 * (0 / 4) = 3 := by omega
    rw [hidx, bufferRealOf_getD 3 bigZero 3 (by rw [hlenZ, hlr4]; omega)]
    rw [if_neg (by omega), if_pos (by omega)]
    have hz : bigZero.getD (3 - 3 % 4) 0 = 0 := rfl
    rw [hz, Nat.and_zero]

/-- C2 (amended): for every offset and nonempty caller buffer of
`uint16_t` length with `length + offset % 4 ≤ 65532` (no `uint16_t`
wrap, the regime in which the check loop stays inside its buffer), if
some byte in the requested range `[offset, offset + length)` is not
0xFF, `writeData` returns the not-erased failure (`false`) before
submitting anything, leaving every byte of the medium unchanged (the
returned medium state is the input state itself) — and this holds under
every resolution `garbage` of the out-of-bounds stack reads. -/
theorem C2_not_erased_unchanged (garbage : Nat → Nat) (env : SdEnv) (endWords : Nat)
    (flash : Nat → Nat) (offset : Nat) (data : List Nat)
    (hwf : ∀ a, flash a < 256) (h0 : 0 < data.length)
    (hnw : data.length + offset % 4 ≤ 65532)
    (j : Nat) (hj : j < data.length) (hd : flash (offset + j) ≠ ERASED) :
    FsBackend.writeData env endWords flash offset data = some (false, flash) ∧
    FsBackend.writeDataUB garbage env endWords flash offset data = some (false, flash) := by
  constructor
  · have hc := eraseCheck_false flash offset data.length hwf (by omega) j hj hd
    simp only [FsBackend.writeData, if_neg (by omega : ¬ data.length = 0), hc,
      Bool.false_eq_true, if_false]
  · have hc := eraseCheckUB_false garbage flash offset data.length hwf hnw j hj hd
    simp only [FsBackend.writeDataUB, if_neg (by omega : ¬ data.length = 0), hc,
      Bool.false_eq_true, if_false]

/-- C2 (witness): a write of two bytes at offset 1 over a medium whose
byte 2 is programmed fails and returns the medium unchanged, in both the
plain and the oracle-resolved embedding. -/
theorem C2_not_erased_unchanged_witness :
    FsBackend.writeData ⟨true, true⟩ 4 flashDirty2 1 [7, 8] = some (false, flashDirty2) ∧
    FsBackend.writeDataUB flashZero ⟨true, true⟩ 4 flashDirty2 1 [7, 8] =
        some (false, flashDirty2) :=
  C2_not_erased_unchanged flashZero ⟨true, true⟩ 4 flashDirty2 1 [7, 8]
    (fun a => by unfold flashDirty2; split <;> decide)
    (by decide) (by decide) 1 (by decide) (by decide)

/-! ## C1: erased-region write/read round trip -/

/-- C1 (counterexample): offset 3 with the 65530-byte buffer `bigData`
on a fully erased 131072-byte medium satisfies the claim's hypotheses
(length > 0, region `[3, 65533)` within bounds, region erased), yet the
round trip fails: the `uint16_t` aligned-length computation wraps to 0,
the erase-state check then reads past the empty read-back buffer and
fails, `writeData` returns `false` leaving the medium erased, and the
subsequent `readData` returns bytes that are not the caller's data. -/
theorem C1_counterexample :
    (FsBackend.writeData ⟨true, true⟩ 32768 flashFF 3 bigData).bind
        (fun r => FsBackend.readData r.2 3 bigData.length) ≠ some bigData := by
  have hlen : bigData.length = 65530 := by
    show (List.replicate 65530 1).length = 65530
    rw [List.length_replicate]
  have hwfFF : ∀ a, flashFF a < 256 := fun a => by unfold flashFF ERASED; decide
  have hcheck : FsBackend.eraseCheck flashFF 3 65530 = false :=
    eraseCheck_false_of_wrap flashFF 3 65530 hwfFF (by decide) (by decide)
  have hw : FsBackend.writeData ⟨true, true⟩ 32768 flashFF 3 bigData =
      some (false, flashFF) := by
    unfold FsBackend.writeData
    simp only [hlen, hcheck, Bool.false_eq_true, if_false]
    rw [if_neg (by decide : ¬ (65530 : Nat) = 0)]
  rw [hw]
  simp only [hlen]
  rw [show (some ((false : Bool), flashFF)).bind
        (fun r => FsBackend.readData r.2 3 65530) =
      FsBackend.readData flashFF 3 65530 from rfl]
  rw [show FsBackend.readData flashFF 3 65530 =
      some ((List.range 65530).map (fun j => ([] : List Nat).getD (j + 3) 0)) from rfl]
  intro h
  have hlist := Option.some.inj h
  have h0 : ((List.range 65530).map (fun j => ([] : List Nat).getD (j + 3) 0)).getD 0 0 =
      bigData.getD 0 0 := congrArg (fun l => l.getD 0 0) hlist
  rw [getD_map_range, if_pos (by omega)] at h0
  have hbig : bigData.getD 0 0 = 1 := rfl
  rw [hbig] at h0
  simp at h0

/-- C1 (amended): for every offset and every nonempty caller buffer of
bytes whose aligned length does not overflow `uint16_t`
(`length + offset % 4 ≤ 65532`), with the region inside the medium's
bounds and erased immediately before the call, and with the medium
signalling successful completion, `writeData` succeeds and a subsequent
`readData` of the same range returns exactly the caller's data. -/
theorem C1_write_read_round_trip (env : SdEnv) (endWords : Nat) (flash : Nat → Nat)
    (offset : Nat) (data : List Nat)
    (hwf : ∀ a, flash a < 256) (hdata : ∀ b ∈ data, b < 256)
    (h0 : 0 < data.length) (hnw : data.length + offset % 4 ≤ 65532)
    (hbound : offset + data.length ≤ 4 * endWords)
    (herased : ∀ j, j < data.length → flash (offset + j) = ERASED)
    (hcomp : env.completionOk = true) :
    FsBackend.writeData env endWords flash offset data =
        some (true, FsBackend.flashAfterWrite flash offset data) ∧
    FsBackend.readData (FsBackend.flashAfterWrite flash offset data) offset data.length =
        some data := by
  constructor
  · rw [writeData_submit env endWords flash offset data hwf h0 hnw herased hbound, hcomp]
    rfl
  · rw [readData_eq _ _ _ (flashAfterWrite_wf flash offset data hwf) h0 hnw]
    congr 1
    apply map_range_eq_of_getD data.length _ data rfl
    intro j hj
    exact flashAfterWrite_requested flash offset data hwf hdata hnw herased j hj

/-- C1 (witness): writing byte 7 at offset 1 of an erased 16-byte medium
and reading it back. -/
theorem C1_write_read_round_trip_witness :
    FsBackend.writeData ⟨true, true⟩ 4 flashFF 1 [7] =
        some (true, FsBackend.flashAfterWrite flashFF 1 [7]) ∧
    FsBackend.readData (FsBackend.flashAfterWrite flashFF 1 [7]) 1 1 = some [7] :=
  C1_write_read_round_trip ⟨true, true⟩ 4 flashFF 1 [7]
    (fun a => by unfold flashFF ERASED; decide) (by decide) (by decide) (by decide) (by decide)
    (fun j hj => rfl) rfl

/-! ## C4: a successful write leaves bytes outside the requested range unchanged -/

/-- C4: for every successful `writeData` on the NOR medium (programming
modelled as bit-clearing AND), every medium byte outside the requested
range `[offset, offset + length)` — including the 0xFF-padded bytes
inside the word-aligned span — holds the same value after the call as
before it. -/
theorem C4_write_frame (env : SdEnv) (endWords : Nat) (flash f2 : Nat → Nat)
    (offset : Nat) (data : List Nat)
    (hwf : ∀ a, flash a < 256) (hdata : ∀ b ∈ data, b < 256)
    (hsucc : FsBackend.writeData env endWords flash offset data = some (true, f2))
    (a : Nat) (ha : a < offset ∨ offset + data.length ≤ a) :
    f2 a = flash a := by
  have hf2 : FsBackend.flashAfterWrite flash offset data = f2 := by
    unfold FsBackend.writeData at hsucc
    split at hsucc
    · simp at hsucc
    · split at hsucc
      · split at hsucc
        · split at hsucc
          · simpa using hsucc
          · simp at hsucc
        · simp at hsucc
      · simp at hsucc
  rw [← hf2]
  exact flashAfterWrite_frame flash offset data hwf hdata a ha

/-- C4 (witness): a successful 2-byte write at offset 1 (span `[0, 4)`)
over a medium whose bytes from address 4 on are programmed to 0x11; the
padding byte 0 inside the aligned span keeps its value. -/
theorem C4_write_frame_witness :
    FsBackend.flashAfterWrite flashTail17 1 [7, 8] 0 = flashTail17 0 :=
  C4_write_frame ⟨true, true⟩ 4 flashTail17 (FsBackend.flashAfterWrite flashTail17 1 [7, 8])
    1 [7, 8] (fun a => by unfold flashTail17 ERASED; split <;> decide) (by decide)
    rfl 0 (Or.inl (by decide))

/-! ## C7 (amended): a failed completion signal hangs forever -/

/-- C7 (amended): when the submission of a write or erase is accepted by
the medium but the asynchronous completion signal reports failure, the
event handler never clears the callback flag, so `writeData` and
`erasePage` busy-wait forever (`none`) instead of returning a
hardware-fault result; a failure result is produced only when the
submission itself is rejected. -/
theorem C7_completion_failure_hangs (env : SdEnv) (endWords pageSizeWords : Nat)
    (flash : Nat → Nat) (offset : Nat) (data : List Nat) (page : Nat)
    (hwf : ∀ a, flash a < 256) (h0 : 0 < data.length)
    (hnw : data.length + offset % 4 ≤ 65532)
    (herased : ∀ j, j < data.length → flash (offset + j) = ERASED)
    (hbound : offset + data.length ≤ 4 * endWords)
    (hvalid : pageSizeWords * page + pageSizeWords ≤ endWords)
    (hcomp : env.completionOk = false) :
    FsBackend.writeData env endWords flash offset data = none ∧
    FsBackend.erasePage env pageSizeWords endWords flash page 1 = none := by
  constructor
  · rw [writeData_submit env endWords flash offset data hwf h0 hnw herased hbound, hcomp]
    rfl
  · have hacc : eraseAccept endWords pageSizeWords (pageSizeWords * page) 1 = true := by
      simp only [eraseAccept, decide_eq_true_eq]
      omega
    simp only [FsBackend.erasePage, hacc, if_true, hcomp, Bool.false_eq_true, if_false]

/-- C7 (witness): the amended statement at offset 4, data `[9]`, page 1
on an erased 32-byte medium with 8-byte pages, completion failing. -/
theorem C7_completion_failure_hangs_witness :
    FsBackend.writeData ⟨true, false⟩ 8 flashFF 4 [9] = none ∧
    FsBackend.erasePage ⟨true, false⟩ 2 8 flashFF 1 1 = none :=
  C7_completion_failure_hangs ⟨true, false⟩ 8 2 flashFF 4 [9] 1
    (fun a => by unfold flashFF ERASED; decide) (by decide) (by decide)
    (fun j hj => rfl) (by decide) (by decide) rfl

/-! ## C8: a successful page erase leaves every byte of the page 0xFF -/

/-- C8: for every valid page index, after a successful `erasePage(p)`
(submission accepted, completion successful) every byte of page `p` —
including the byte at the page's trailing boundary — reads back as the
erased-state value 0xFF. -/
theorem C8_erase_then_read (env : SdEnv) (pageSizeWords endWords : Nat)
    (flash : Nat → Nat) (page : Nat)
    (hwf : ∀ a, flash a < 256) (hps : 0 < pageSizeWords)
    (hvalid : pageSizeWords * page + pageSizeWords ≤ endWords)
    (hcomp : env.completionOk = true)
    (a : Nat) (ha1 : page * (4 * pageSizeWords) ≤ a)
    (ha2 : a < (page + 1) * (4 * pageSizeWords)) :
    FsBackend.erasePage env pageSizeWords endWords flash page 1 =
        some (true, erasePagesFlash flash (pageSizeWords * page) 1 pageSizeWords) ∧
    FsBackend.readData (erasePagesFlash flash (pageSizeWords * page) 1 pageSizeWords) a 1 =
        some [ERASED] := by
  have e1 : page * (4 * pageSizeWords) = 4 * (pageSizeWords * page) := by ring
  have e2 : (page + 1) * (4 * pageSizeWords) =
      4 * (pageSizeWords * page) + 4 * (1 * pageSizeWords) := by ring
  have hacc : eraseAccept endWords pageSizeWords (pageSizeWords * page) 1 = true := by
    simp only [eraseAccept, decide_eq_true_eq]
    omega
  have herased : erasePagesFlash flash (pageSizeWords * page) 1 pageSizeWords a = ERASED := by
    unfold erasePagesFlash
    rw [if_pos (by omega)]
  constructor
  · simp only [FsBackend.erasePage, hacc, if_true, hcomp]
  · have hwferased : ∀ x, erasePagesFlash flash (pageSizeWords * page) 1 pageSizeWords x < 256 := by
      intro x
      unfold erasePagesFlash
      split
      · decide
      · exact hwf x
    rw [readData_eq _ _ _ hwferased (by decide) (by omega)]
    have hr1 : List.range 1 = [0] := rfl
    simp only [hr1, List.map_cons, List.map_nil, Nat.add_zero, herased]

/-- C8 (witness): erasing page 1 of a 2-page, 8-bytes-per-page blank
medium and reading back the page's trailing boundary byte (address 15). -/
theorem C8_erase_then_read_witness :
    FsBackend.erasePage ⟨true, true⟩ 2 4 flashZero 1 1 =
        some (true, erasePagesFlash flashZero 2 1 2) ∧
    FsBackend.readData (erasePagesFlash flashZero 2 1 2) 15 1 = some [ERASED] :=
  C8_erase_then_read ⟨true, true⟩ 2 4 flashZero 1
    (fun a => by unfold flashZero; decide) (by decide) (by decide) rfl
    15 (by decide) (by decide)
